import Mathlib

/-!
Verification development for the BRVM bulletin collector
(src/backend/collector.py).

The extraction pipeline is embedded shallowly: Python strings are Lean
strings (processed as character lists), Python floats are exact rationals
(the collector only ever manipulates decimal literals read from bulletin
cells, never binary-float artefacts, and every statement below compares
the code model and the specification formula over the same numeric
carrier), Python None is Option.none, and the sqlite tables are modelled
at the level of their uniqueness keys, which is the only aspect the
persistence claims quantify over.
-/

namespace BRVM

/-- The whitespace code points recognised by Python `str.strip` /
`str.split` / regex `\s` that can occur in bulletin text (ASCII whitespace
plus the non-breaking space U+00A0). -/
def pyWsChars : List Char := [' ', '\t', '\n', '\r', Char.ofNat 11, Char.ofNat 12, Char.ofNat 160]

def isPyWs (c : Char) : Bool := pyWsChars.contains c

/-- Python `str.strip()`. -/
def pyStrip (s : String) : String :=
  ⟨((s.toList.dropWhile isPyWs).reverse.dropWhile isPyWs).reverse⟩

/-- Python `str.upper()` (ASCII case map; every token the collector
compares case-insensitively — symbols, sector codes, section headings —
is ASCII). -/
def upperStr (s : String) : String := ⟨s.toList.map Char.toUpper⟩

def lowerList (l : List Char) : List Char := l.map Char.toLower

/-- Python substring membership `needle in haystack`. -/
def strContains (hay needle : String) : Bool :=
  hay.toList.tails.any (fun t => needle.toList.isPrefixOf t)

/-- Python `str.split()` with no argument: split on whitespace runs,
dropping empty tokens. -/
def pyWords (s : String) : List String :=
  ((s.toList.foldr
      (fun c acc =>
        if isPyWs c then [] :: acc
        else
          match acc with
          | [] => [[c]]
          | g :: gs => (c :: g) :: gs)
      []).filter (· ≠ [])).map (fun l => (⟨l⟩ : String))

/-- Python `str.split("\n")` (keeps empty pieces). -/
def splitNl (s : String) : List String :=
  (s.toList.foldr
      (fun c acc =>
        if c = '\n' then [] :: acc
        else
          match acc with
          | [] => [[c]]
          | g :: gs => (c :: g) :: gs)
      [[]]).map (fun l => (⟨l⟩ : String))

/-- Python `str.rstrip("*")`. -/
def rstripStar (s : String) : String :=
  ⟨(s.toList.reverse.dropWhile (· = '*')).reverse⟩

/-- Python `str.find` on character lists: index of the first occurrence,
none when absent (the source only uses the found branch). -/
def pyFind (hay needle : List Char) : Option ℕ :=
  (List.range (hay.length + 1)).find? (fun i => needle.isPrefixOf (hay.drop i))

def digitsVal (ds : List Char) : ℕ := ds.foldl (fun a c => a * 10 + (c.toNat - 48)) 0

/-- Decimal-literal parser modelling the Python builtin `float()` on the
token shapes the collector feeds it after normalisation: optional sign,
integer digits, optional single dot with fraction digits.  (Exponent,
underscore, `inf` and `nan` literals are not modelled; bulletin cells
never contain them and no claim depends on them.) -/
def pyFloatLit (l : List Char) : Option ℚ :=
  let sr : ℚ × List Char :=
    match l with
    | c :: r => if c = '+' then (1, r) else if c = '-' then (-1, r) else (1, l)
    | [] => (1, l)
  let ds := sr.2.takeWhile Char.isDigit
  let rest := sr.2.dropWhile Char.isDigit
  match rest with
  | [] => if ds = [] then none else some (sr.1 * (digitsVal ds : ℚ))
  | '.' :: fs =>
    if fs.all Char.isDigit ∧ (ds ≠ [] ∨ fs ≠ []) then
      some (sr.1 * ((digitsVal ds : ℚ) + (digitsVal fs : ℚ) / (10 : ℚ) ^ fs.length))
    else none
  | _ => none

/-- The sentinel "no data" tokens of collector.py `parse_float`. -/
def sentinelles : List String := ["", "-", "NC", "ND", "SP"]

/-- collector.py `parse_float`: sentinel tokens and whitespace-only input
give none; spaces and non-breaking spaces are removed, comma decimal
separators become dots, percent signs and plus signs are removed; a
non-numeric remainder gives none (the Python `except ValueError` branch). -/
def parse_float (s : String) : Option ℚ :=
  if s = "" ∨ sentinelles.contains (pyStrip s) then none
  else
    let t := (pyStrip s).toList
    let t := t.filter (fun c => c != Char.ofNat 160 && c != ' ')
    let t := t.map (fun c => if c = ',' then '.' else c)
    let t := t.filter (fun c => c != '%' && c != '+')
    pyFloatLit t

/-- Python `int()` truncation toward zero. -/
def pyTrunc (q : ℚ) : ℤ := if q < 0 then -((-q).floor) else q.floor

/-- collector.py `parse_int`: normalise to a float first, then truncate. -/
def parse_int (s : String) : Option ℤ := (parse_float s).map pyTrunc

/-- Python `round(x, 2)`: round half to even at two decimal places. -/
def pyRoundHalfEven (q : ℚ) : ℤ :=
  let n := q.floor
  let r := q - n
  if r < 1 / 2 then n
  else if 1 / 2 < r then n + 1
  else if n % 2 = 0 then n else n + 1

def pyRound2 (q : ℚ) : ℚ := (pyRoundHalfEven (q * 100) : ℚ) / 100

/-- Sector code → sector label map (collector.py SECTEURS). -/
def SECTEURS : List (String × String) :=
  [("TEL", "BRVM-TELECOMMUNICATIONS"),
   ("FIN", "BRVM-SERVICES FINANCIERS"),
   ("CD", "BRVM-CONSOMMATION DISCRETIONNAIRE"),
   ("CB", "BRVM-CONSOMMATION DE BASE"),
   ("IND", "BRVM-INDUSTRIELS"),
   ("ENE", "BRVM-ENERGIE"),
   ("SPU", "BRVM-SERVICES PUBLICS")]

def secteurKeys : List String := SECTEURS.map (·.1)

/-- All known BRVM symbols (collector.py SYMBOLES_BRVM). -/
def SYMBOLES_BRVM : List String :=
  ["NTLC", "PALC", "SPHC", "SMBC", "TTLC", "TTLS",
   "ECOC", "SGBC", "SIBC", "ONTBF", "ORAC", "SNTS",
   "SCRC", "SICC", "SLBC", "SOGC", "STBC", "UNLC",
   "ABJC", "BNBC", "CFAC", "LNBB", "NEIC", "PRSC", "UNXC",
   "SHEC", "BICB", "BICC", "BOAB", "BOABF", "BOAC", "BOAM",
   "BOAN", "BOAS", "CBIBF", "ETIT", "NSBC", "ORGT", "SAFC",
   "CABC", "FTSC", "SDSC", "SEMC", "SIVC", "STAC",
   "CIEC", "SDCC"]

/-- Python `SECTEURS.get(code, "")` where code may be None. -/
def secteurLibelle (code : Option String) : String :=
  match code with
  | some c => ((SECTEURS.find? (fun p => p.1 == c)).map (·.2)).getD ""
  | none => ""

/-- One page of the decoded document: its extracted plain text and its
detected tables (rows of cells; a missing cell is none, mirroring the
`str(cell or "")` treatment in the source). -/
structure RawPage where
  text : String
  tables : List (List (List (Option String)))
deriving DecidableEq

/-- The decoded multi-page document handed to the extractors. -/
structure PDF where
  pages : List RawPage
deriving DecidableEq

/-- One per-security record, with the fields of the Python `action` dict
(and of the `cours` table columns). -/
structure Action where
  compartiment : Option String
  secteur_code : Option String
  secteur_libelle : String
  symbole : String
  titre : String
  cours_precedent : Option ℚ
  cours_ouverture : Option ℚ
  cours_cloture : Option ℚ
  variation_jour : Option ℚ
  volume : Option ℤ
  valeur_seance : Option ℤ
  cours_reference : Option ℚ
  variation_annuelle : Option ℚ
  dividende_montant : Option ℚ
  dividende_date : Option String
  rendement_net : Option ℚ
  per : Option ℚ
deriving DecidableEq

def dfltAction : Action :=
  { compartiment := none, secteur_code := none, secteur_libelle := "",
    symbole := "", titre := "", cours_precedent := none,
    cours_ouverture := none, cours_cloture := none, variation_jour := none,
    volume := none, valeur_seance := none, cours_reference := none,
    variation_annuelle := none, dividende_montant := none,
    dividende_date := none, rendement_net := none, per := none }

/-- Python `str(cell or "")`. -/
def cellStr (c : Option String) : String := c.getD ""

def cellNorm (c : Option String) : String := pyStrip (cellStr c)

/-- The skip condition of the cell-classification loop (extract_actions):
`not cell_str or cell_str in SYMBOLES_BRVM or cell_str.upper() in SECTEURS`
(note: the symbol test is on the raw-case cell). -/
def cellSkipped (cs : String) : Bool :=
  cs == "" || SYMBOLES_BRVM.contains cs || secteurKeys.contains (upperStr cs)

/-- Python `str.isnumeric()` restricted to ASCII digit content (the only
numeric code points in bulletin cells). -/
def pyIsNumeric (l : List Char) : Bool := !l.isEmpty && l.all Char.isDigit

/-- The name test of the cell-classification loop:
`len(cell_str) > 3 and not cell_str.replace(" ", "").isnumeric()`. -/
def nameTest (cs : String) : Bool :=
  decide (3 < cs.length) && !pyIsNumeric (cs.toList.filter (· != ' '))

/-- One iteration of the cell-classification loop of extract_actions
(lines 397-407): skipped cells leave the state unchanged, a numeric cell
is appended to the number list, a non-numeric cell passing the name test
overwrites the running `titre`. -/
def classifyStep (st : List ℚ × String) (cell : Option String) : List ℚ × String :=
  if cellSkipped (cellNorm cell) then st
  else
    match parse_float (cellNorm cell) with
    | some v => (st.1 ++ [v], st.2)
    | none => if nameTest (cellNorm cell) then (st.1, cellNorm cell) else st

/-- The cell-classification loop of extract_actions over a whole row. -/
def classifyCells (row : List (Option String)) : List ℚ × String :=
  row.foldl classifyStep ([], "")

def numsOfRow (row : List (Option String)) : List ℚ := (classifyCells row).1

def titreOfRow (row : List (Option String)) : String := (classifyCells row).2

/-- The symbol scan of extract_actions: first cell whose stripped
upper-cased text is a known symbol. -/
def findSymIdx (row : List (Option String)) : Option ℕ :=
  row.findIdx? (fun c => SYMBOLES_BRVM.contains (upperStr (cellNorm c)))

/-- The sector recovery of extract_actions: the cell before the symbol,
else (only when that one is not a sector code) the cell two before. -/
def secteurOfRow (row : List (Option String)) (i : ℕ) : Option String :=
  if 0 < i then
    let prev := upperStr (cellNorm ((row[i - 1]?).getD none))
    if secteurKeys.contains prev then some prev
    else if 1 < i then
      let prev2 := upperStr (cellNorm ((row[i - 2]?).getD none))
      if secteurKeys.contains prev2 then some prev2 else none
    else none
  else none

/-- Python truthiness of an optional float (None and 0.0 are falsy). -/
def truthyQ : Option ℚ → Bool
  | none => false
  | some v => v != 0

/-- The derived day-variation correction of extract_actions (lines
432-437), guarded by Python truthiness of both prices. -/
def applyDerivedVariation (a : Action) : Action :=
  if truthyQ a.cours_cloture && truthyQ a.cours_precedent && a.variation_jour == none then
    { a with
        variation_jour :=
          some (pyRound2 ((a.cours_cloture.getD 0 - a.cours_precedent.getD 0)
              / a.cours_precedent.getD 0 * 100)) }
  else a

/-- The positional assignment of the numeric sequence (the `action` dict
literal of extract_actions). -/
def tableRowRecord (comp : Option String) (row : List (Option String)) (i : ℕ) : Action :=
  let nums := numsOfRow row
  { compartiment := comp,
    secteur_code := secteurOfRow row i,
    secteur_libelle := secteurLibelle (secteurOfRow row i),
    symbole := upperStr (cellNorm ((row[i]?).getD none)),
    titre := titreOfRow row,
    cours_precedent := nums[0]?,
    cours_ouverture := nums[1]?,
    cours_cloture := nums[2]?,
    variation_jour := nums[3]?,
    volume := (nums[4]?).map pyTrunc,
    valeur_seance := (nums[5]?).map pyTrunc,
    cours_reference := nums[6]?,
    variation_annuelle := nums[7]?,
    dividende_montant := nums[8]?,
    dividende_date := none,
    rendement_net := nums[9]?,
    per := nums[10]? }

/-- The per-row body of extract_actions: rows shorter than 6 cells are
skipped, a row with no known symbol is skipped, fewer than 3 recovered
numbers discards the row, else the record is built and the derived
variation correction applied. -/
def processTableRow (comp : Option String) (row : List (Option String)) : Option Action :=
  if row.length < 6 then none
  else
    match findSymIdx row with
    | none => none
    | some i =>
      if (numsOfRow row).length < 3 then none
      else some (applyDerivedVariation (tableRowRecord comp row i))

/-- `for page_num in [2, 3]: if page_num >= len(pdf.pages): continue`. -/
def pagesContenu (pdf : PDF) : List RawPage := [2, 3].filterMap (fun i => pdf.pages[i]?)

/-- One content page of extract_actions: the tier cursor is set to
PRESTIGE when the page text contains the PRESTIGE heading (the source
tests "COMPARTIMENT PRINCIPAL" too, but that branch is `pass`), then every
table with at least 2 rows is scanned row by row. -/
def tablePageStep (st : List Action × Option String) (page : RawPage) :
    List Action × Option String :=
  let comp := if strContains page.text "COMPARTIMENT PRESTIGE" then some "PRESTIGE" else st.2
  let actions := page.tables.foldl
    (fun acc table =>
      if table.length < 2 then acc
      else
        table.foldl
          (fun acc2 row =>
            match processTableRow comp row with
            | some a => acc2 ++ [a]
            | none => acc2)
          acc)
    st.1
  (actions, comp)

/-- The table-based phase of extract_actions: the accumulated `actions`
list before the quality gate. -/
def extractActionsTable (pdf : PDF) : List Action :=
  ((pagesContenu pdf).foldl tablePageStep ([], none)).1

/-- The starred repetition `(?:[\s][\d]{3})*` of the number pattern:
greedily consume whitespace-plus-three-digit groups. -/
def scanRep3 : List Char → List Char × List Char
  | c :: d1 :: d2 :: d3 :: rest =>
    if isPyWs c && d1.isDigit && d2.isDigit && d3.isDigit then
      let p := scanRep3 rest
      (c :: d1 :: d2 :: d3 :: p.1, p.2)
    else ([], c :: d1 :: d2 :: d3 :: rest)
  | l => ([], l)

/-- The optional sign `[-+]?` of the number pattern. -/
def scanSign (l : List Char) : List Char × List Char :=
  match l with
  | c :: r => if c = '+' || c = '-' then ([c], r) else ([], l)
  | [] => ([], l)

/-- The optional fraction `(?:[,\.][\d]+)?` of the number pattern. -/
def scanFrac (l : List Char) : List Char × List Char :=
  match l with
  | c :: r =>
    if (c = ',' || c = '.') && !(r.takeWhile Char.isDigit).isEmpty then
      (c :: r.takeWhile Char.isDigit, r.dropWhile Char.isDigit)
    else ([], l)
  | [] => ([], l)

/-- The optional percent suffix `(?:\s*%)?` of the number pattern. -/
def scanPct (l : List Char) : List Char × List Char :=
  match l.dropWhile isPyWs with
  | '%' :: r => ((l.takeWhile isPyWs) ++ ['%'], r)
  | _ => ([], l)

/-- One match of the number pattern
`[-+]?[\d]+(?:[\s][\d]{3})*(?:[,\.][\d]+)?(?:\s*%)?` anchored at the head
of the input: the matched text and the remaining input.  (The pattern is
deterministic: after the mandatory digit run every component is optional,
so the greedy scan needs no backtracking.) -/
def scanNumAt (l : List Char) : Option (List Char × List Char) :=
  let sr := scanSign l
  let ds := sr.2.takeWhile Char.isDigit
  if ds.isEmpty then none
  else
    let g := scanRep3 (sr.2.dropWhile Char.isDigit)
    let fr := scanFrac g.2
    let pc := scanPct fr.2
    some (sr.1 ++ ds ++ g.1 ++ fr.1 ++ pc.1, pc.2)

/-- Left-to-right non-overlapping scan of the number pattern (re.findall).
The fuel argument bounds the iterations; each step consumes at least one
character, so the initial fuel `l.length` is always sufficient (proved by
`findallNumsGo_congr` below). -/
def findallNumsGo : ℕ → List Char → List (List Char)
  | 0, _ => []
  | _ + 1, [] => []
  | fuel + 1, c :: rest =>
    match scanNumAt (c :: rest) with
    | some (m, r) => m :: findallNumsGo fuel r
    | none => findallNumsGo fuel rest

/-- re.findall of the number pattern over a line. -/
def findallNums (l : List Char) : List (List Char) := findallNumsGo l.length l

/-- The `nums` list of extract_actions_regex: every pattern match, spaces
removed, parsed, failures dropped. -/
def numsOfLine (line : String) : List ℚ :=
  (findallNums line.toList).filterMap (fun n => parse_float ⟨n.filter (· != ' ')⟩)

/-- The character class `[A-ZÉÈÊÀÂÎÏÔÙÛÜ'\s\(\)]` of the title pattern. -/
def titreClassChar (c : Char) : Bool :=
  ('A' ≤ c && c ≤ 'Z')
  || ['É', 'È', 'Ê', 'À', 'Â', 'Î', 'Ï', 'Ô', 'Ù', 'Û', 'Ü'].contains c
  || c = Char.ofNat 39 || c = '(' || c = ')' || isPyWs c

/-- The lookahead `(?=\s+[\d])`. -/
def lookWsDigit (l : List Char) : Bool :=
  !(l.takeWhile isPyWs).isEmpty &&
    (match l.dropWhile isPyWs with
     | c :: _ => c.isDigit
     | [] => false)

/-- Lazy expansion of the captured group: grow one class character at a
time, stopping at the first position where the lookahead holds. -/
def titreGroupSearch : List Char → List Char → Option (List Char)
  | _, [] => none
  | grp, c :: r =>
    if titreClassChar c then
      if lookWsDigit r then some (grp ++ [c])
      else titreGroupSearch (grp ++ [c]) r
    else none

/-- Backtracking over the greedy `\s+`: try the longest whitespace run
first, then shorter ones down to length 1. -/
def titreWsSearch (l : List Char) : ℕ → Option (List Char)
  | 0 => none
  | a + 1 =>
    match titreGroupSearch [] (l.drop (a + 1)) with
    | some g => some g
    | none => titreWsSearch l a

/-- `re.match(r'\s+([A-ZÉÈÊÀÂÎÏÔÙÛÜ\'\s\(\)]+?)(?=\s+[\d])', after_sym)`:
the captured group, or none when the pattern does not match. -/
def titreMatch (l : List Char) : Option (List Char) :=
  titreWsSearch l (l.takeWhile isPyWs).length

/-- `titre_match.group(1).strip() if titre_match else ""`. -/
def regexTitre (afterSym : List Char) : String :=
  match titreMatch afterSym with
  | some g => pyStrip ⟨g⟩
  | none => ""

/-- The token scan of extract_actions_regex: the first word whose
stripped, upper-cased, star-stripped form is a known symbol. -/
def findSymboleWords (words : List String) : Option (ℕ × String) :=
  match words.findIdx? (fun w => SYMBOLES_BRVM.contains (rstripStar (upperStr (pyStrip w)))) with
  | some i => some (i, rstripStar (upperStr (pyStrip ((words[i]?).getD ""))))
  | none => none

/-- `for j in range(max(0, i-2), i)`: the first of the up-to-two words
before the symbol whose upper-cased form is a sector code. -/
def secteurOfWords (words : List String) (i : ℕ) : Option String :=
  (((List.range i).drop (i - 2)).find?
      (fun j => secteurKeys.contains (upperStr (pyStrip ((words[j]?).getD ""))))).map
    (fun j => upperStr (pyStrip ((words[j]?).getD "")))

/-- The `action` dict literal of extract_actions_regex: title recovery
and positional assignment of the line's numeric sequence, with the
volume guard `len(nums) > 4 and nums[4] < 1e9`. -/
def regexLineRecord (comp : String) (line : String) (i : ℕ) (symbole : String) : Action :=
  let nums := numsOfLine line
  { compartiment := some comp,
    secteur_code := secteurOfWords (pyWords line) i,
    secteur_libelle := secteurLibelle (secteurOfWords (pyWords line) i),
    symbole := symbole,
    titre :=
      match pyFind (upperStr line).toList symbole.toList with
      | some pos => regexTitre (line.toList.drop (pos + symbole.length))
      | none => "",
    cours_precedent := nums[0]?,
    cours_ouverture := nums[1]?,
    cours_cloture := nums[2]?,
    variation_jour := nums[3]?,
    volume :=
      match nums[4]? with
      | some v => if v < 10 ^ 9 then some (pyTrunc v) else none
      | none => none,
    valeur_seance := (nums[5]?).map pyTrunc,
    cours_reference := nums[6]?,
    variation_annuelle := nums[7]?,
    dividende_montant := none,
    dividende_date := none,
    rendement_net := none,
    per := none }

/-- The per-line body of extract_actions_regex after the tier update and
before the deduplicated append: empty-line and no-symbol skips, the
minimum-three-numbers gate, then the record. -/
def regexLineAction (comp : String) (line : String) : Option Action :=
  if (pyWords line).isEmpty then none
  else
    match findSymboleWords (pyWords line) with
    | none => none
    | some (i, symbole) =>
      if (numsOfLine line).length < 3 then none
      else some (regexLineRecord comp line i symbole)

/-- The tier-cursor update of extract_actions_regex, applied to every
line: either compartment heading resets the cursor. -/
def tierUpdate (comp : String) (line : String) : String :=
  if strContains (upperStr line) "COMPARTIMENT PRESTIGE" then "PRESTIGE"
  else if strContains (upperStr line) "COMPARTIMENT PRINCIPAL" then "PRINCIPAL"
  else comp

/-- One line of extract_actions_regex: tier update, then the line body,
then the `if symbole not in [a["symbole"] for a in actions]` append. -/
def regexLineStep (st : List Action × String) (line : String) : List Action × String :=
  let comp := tierUpdate st.2 line
  match regexLineAction comp line with
  | none => (st.1, comp)
  | some a =>
    if a.symbole ∈ st.1.map (·.symbole) then (st.1, comp)
    else (st.1 ++ [a], comp)

/-- collector.py extract_actions_regex: the text-fallback extractor over
pages 3 and 4, with the accumulator (and the tier cursor, initialised to
PRESTIGE) threaded across all lines of all pages. -/
def extract_actions_regex (pdf : PDF) : List Action :=
  ((pagesContenu pdf).foldl
      (fun st page => (splitNl page.text).foldl regexLineStep st)
      ([], "PRESTIGE")).1

/-- collector.py extract_actions: the table-based phase, replaced
wholesale by the regex fallback when it yields fewer than 5 rows. -/
def extract_actions (pdf : PDF) : List Action :=
  let actions := extractActionsTable pdf
  if actions.length < 5 then extract_actions_regex pdf else actions

/-- The weekday alternation of the date pattern of extract_date_from_pdf. -/
def joursSemaine : List String := ["lundi", "mardi", "mercredi", "jeudi", "vendredi"]

/-- The month-name → month-number dictionary `mois`. -/
def moisMap : List (String × ℕ) :=
  [("janvier", 1), ("février", 2), ("mars", 3), ("avril", 4),
   ("mai", 5), ("juin", 6), ("juillet", 7), ("août", 8),
   ("septembre", 9), ("octobre", 10), ("novembre", 11), ("décembre", 12)]

def moisNoms : List String := moisMap.map (·.1)

/-- Case-insensitive literal word match at the head of the input
(re.IGNORECASE over the ASCII letters of the pattern words). -/
def matchWordCI (w : String) (l : List Char) : Option (List Char) :=
  if lowerList (l.take w.length) = w.toList then some (l.drop w.length) else none

/-- Ordered regex alternation of literal words (no word of either
alternation is a prefix of another, so at most one can match). -/
def matchAlt : List String → List Char → Option (String × List Char)
  | [], _ => none
  | w :: ws, l =>
    match matchWordCI w l with
    | some r => some (w, r)
    | none => matchAlt ws l

/-- `\s+`: at least one whitespace character, consumed greedily. -/
def matchWs1 (l : List Char) : Option (List Char) :=
  if (l.takeWhile isPyWs).isEmpty then none else some (l.dropWhile isPyWs)

/-- `[\d]{k}`: exactly k digits. -/
def matchDigits (k : ℕ) (l : List Char) : Option (List Char × List Char) :=
  let d := l.take k
  if d.length = k ∧ d.all Char.isDigit then some (d, l.drop k) else none

/-- The tail of the date pattern after the weekday and its whitespace:
k day digits, whitespace, month word, whitespace, 4 year digits. -/
def tryDateTail (k : ℕ) (r2 : List Char) : Option (ℕ × String × ℕ) :=
  match matchDigits k r2 with
  | none => none
  | some (ds, r3) =>
    match matchWs1 r3 with
    | none => none
    | some r4 =>
      match matchAlt moisNoms r4 with
      | none => none
      | some (m, r5) =>
        match matchWs1 r5 with
        | none => none
        | some r6 =>
          match matchDigits 4 r6 with
          | none => none
          | some (ys, _) => some (digitsVal ds, m, digitsVal ys)

/-- The full date pattern anchored at the current position; `\d{1,2}` is
greedy, so two day digits are tried before one. -/
def tryDateAt (l : List Char) : Option (ℕ × String × ℕ) :=
  match matchAlt joursSemaine l with
  | none => none
  | some (_, r1) =>
    match matchWs1 r1 with
    | none => none
    | some r2 =>
      match tryDateTail 2 r2 with
      | some x => some x
      | none => tryDateTail 1 r2

/-- re.search: the leftmost position where the date pattern matches. -/
def searchDate : List Char → Option (ℕ × String × ℕ)
  | [] => none
  | c :: rest =>
    match tryDateAt (c :: rest) with
    | some x => some x
    | none => searchDate rest

/-- A Python `datetime.date` as its (year, month, day) components.
(Validity of the components is not modelled: an out-of-range day would
raise in the Python constructor, and no claim depends on that path.) -/
structure PyDate where
  annee : ℕ
  moisNum : ℕ
  jour : ℕ
deriving DecidableEq

/-- `pdf.pages[0]` (a decoded document always has at least one page). -/
def firstPage (pdf : PDF) : RawPage := pdf.pages.headD { text := "", tables := [] }

/-- collector.py extract_date_from_pdf: search page 1 for
"weekday day month-name year" and build the date via the month map. -/
def extract_date_from_pdf (pdf : PDF) : Option PyDate :=
  match searchDate (firstPage pdf).text.toList with
  | some (j, m, a) =>
    let mn := ((moisMap.find? (fun p => p.1 == m)).map (·.2)).getD 0
    if mn ≠ 0 then some ⟨a, mn, j⟩ else none
  | none => none

def pad2 (n : ℕ) : String := if n < 10 then "0" ++ toString n else toString n

def pad4 (n : ℕ) : String :=
  if n < 10 then "000" ++ toString n
  else if n < 100 then "00" ++ toString n
  else if n < 1000 then "0" ++ toString n
  else toString n

/-- Python `date.strftime("%Y-%m-%d")`. -/
def dateToStr (d : PyDate) : String :=
  pad4 d.annee ++ "-" ++ pad2 d.moisNum ++ "-" ++ pad2 d.jour

/-- `INSERT OR IGNORE INTO cours` modelled on the UNIQUE(date, symbole)
key: the row is stored unless its key already exists, and a duplicate key
raises no error. -/
def insertCoursKey (db : List (String × String)) (k : String × String) :
    List (String × String) :=
  if k ∈ db then db else db ++ [k]

/-- collector.py save_actions: one INSERT OR IGNORE per action; the
`inserted` counter is incremented after every execute that raises no
exception — and INSERT OR IGNORE never raises on a duplicate — so it
counts every action, not the rows actually stored. -/
def save_actions (db : List (String × String)) (date_str : String)
    (actions : List Action) : List (String × String) × ℕ :=
  actions.foldl
    (fun st a => (insertCoursKey st.1 (date_str, a.symbole), st.2 + 1))
    (db, 0)

/-- collector.py save_seance, modelled on the seances PRIMARY KEY (date):
INSERT OR REPLACE leaves exactly one row per date. -/
def save_seance (db : List String) (date_str : String) : List String :=
  if date_str ∈ db then db else db ++ [date_str]

/-- The persisted store: the key sets of the two tables the pipeline
writes (seances keyed by date, cours keyed by (date, symbole)). -/
structure DBState where
  seances : List String
  cours : List (String × String)
deriving DecidableEq

/-- The summary dict returned by process_bulletin (the parts the claims
quantify over). -/
structure ProcResult where
  dateKey : String
  nb_actions : ℕ
  actions : List Action
deriving DecidableEq

/-- The date key process_bulletin persists under: the page-1 date when it
resolves and differs from the caller hint, else the hint. -/
def bulletinDateKey (pdf : PDF) (target_date : PyDate) : String :=
  match extract_date_from_pdf pdf with
  | some d => if d ≠ target_date then dateToStr d else dateToStr target_date
  | none => dateToStr target_date

/-- collector.py process_bulletin: extraction, date reconciliation, then
persistence of the summary row and the action rows under the reconciled
key.  (The page-1 summary content extraction fills only non-key columns
and is modelled by the keyed insert alone.) -/
def process_bulletin (db : DBState) (pdf : PDF) (target_date : PyDate) :
    DBState × ProcResult :=
  let date_str := bulletinDateKey pdf target_date
  let actions := extract_actions pdf
  let seances2 := save_seance db.seances date_str
  let cp := save_actions db.cours date_str actions
  (⟨seances2, cp.1⟩, ⟨date_str, cp.2, actions⟩)

/-- The outcome of attempting one date of a range: the bulletin processed
to a result, or the download returned None, or an exception was raised
while processing the bulletin (e.g. the document could not be opened). -/
inductive DayOutcome (R E : Type) where
  | success : R → DayOutcome R E
  | downloadFail : DayOutcome R E
  | processError : E → DayOutcome R E
deriving DecidableEq

def isProcError {R E : Type} : DayOutcome R E → Bool
  | .processError _ => true
  | _ => false

def successOf {R E : Type} : DayOutcome R E → Option R
  | .success r => some r
  | _ => none

/-- `date.weekday()` over day numbers (day 0 is a Monday; values 5 and 6
are the weekend). -/
def pyWeekday (d : ℤ) : ℤ := d % 7

/-- collector.py collect_date over an abstract per-date outcome: weekends
short-circuit to None, a failed download yields None, and — since neither
collect_date nor collect_range wraps process_bulletin in a try/except — a
processing exception propagates to the caller. -/
def collect_date {R E : Type} (outcome : ℤ → DayOutcome R E) (d : ℤ) :
    Except E (Option R) :=
  if pyWeekday d ≥ 5 then .ok none
  else
    match outcome d with
    | .success r => .ok (some r)
    | .downloadFail => .ok none
    | .processError e => .error e

/-- The `while current <= end` loop of collect_range; the fuel counts the
remaining loop iterations, `(end + 1 - current).toNat` exactly. -/
def collectRangeGo {R E : Type} (outcome : ℤ → DayOutcome R E) (endD : ℤ) :
    ℕ → ℤ → List R → Except E (List R)
  | 0, _, acc => .ok acc
  | fuel + 1, current, acc =>
    if current ≤ endD then
      if pyWeekday current < 5 then
        match collect_date outcome current with
        | .error e => .error e
        | .ok (some r) => collectRangeGo outcome endD fuel (current + 1) (acc ++ [r])
        | .ok none => collectRangeGo outcome endD fuel (current + 1) acc
      else collectRangeGo outcome endD fuel (current + 1) acc
    else .ok acc

/-- collector.py collect_range: ascending scan of the date range, weekday
dates collected, successful results accumulated; an exception from
collect_date propagates (there is no try/except). -/
def collect_range {R E : Type} (outcome : ℤ → DayOutcome R E) (start endD : ℤ) :
    Except E (List R) :=
  collectRangeGo outcome endD (endD + 1 - start).toNat start []

/-- The dates of the range in ascending order. -/
def dayList (start endD : ℤ) : List ℤ :=
  (List.range (endD + 1 - start).toNat).map (fun (i : ℕ) => start + (i : ℤ))

/-- What the specification promises collect_range returns: the successful
results of all weekday dates of the range, in ascending date order. -/
def weekdaySuccesses {R E : Type} (outcome : ℤ → DayOutcome R E) (start endD : ℤ) :
    List R :=
  ((dayList start endD).filter (fun d => decide (pyWeekday d < 5))).filterMap
    (fun d => successOf (outcome d))

/-- Spec 4.3 step 4, "remaining cells": the normalised cells of the row
that the classification loop does not skip. -/
def eligibleCells (row : List (Option String)) : List String :=
  (row.map cellNorm).filter (fun cs => !cellSkipped cs)

/-- The remaining cells that qualify as a free-text name: non-numeric,
longer than 3 characters, not all-digits. -/
def nameCells (row : List (Option String)) : List String :=
  (eligibleCells row).filter (fun cs => (parse_float cs).isNone && nameTest cs)

/-- Spec-side description (4.3 step 4 / C7): "the FIRST non-numeric cell
longer than 3 characters that is not itself all-digits is treated as the
free-text security name". -/
def specFirstNameCell (row : List (Option String)) : Option String :=
  (nameCells row).head?

/-- An empty page, used to pad concrete documents up to the content pages. -/
def pageVide : RawPage := { text := "", tables := [] }

/-- A document with no pages at all: both extractors scan no content page. -/
def pdfVide : PDF := ⟨[]⟩

/-- A quote row as extract_tables delivers it: sector, symbol, name, then
previous / opening / closing prices. -/
def rowC3 : List (Option String) :=
  [some "FIN", some "SGBC", some "TITRE ABC", some "100", some "101", some "102"]

/-- Content page whose only tier heading is the second tier (PRINCIPAL),
followed by a quote row. -/
def pdfC3 : PDF :=
  ⟨[pageVide, pageVide, { text := "COMPARTIMENT PRINCIPAL", tables := [[rowC3, []]] }]⟩

/-- Content page for the text fallback: a PRINCIPAL heading line followed
by a quote line. -/
def pdfTierFallback : PDF :=
  ⟨[pageVide, pageVide,
    { text := "COMPARTIMENT PRINCIPAL\nCB SGBC NOM DU TITRE 10,5 11,5 12,5", tables := [] }]⟩

/-- A row whose closing price is 0 (present but falsy) and whose number
sequence stops after the three prices. -/
def rowC5 : List (Option String) :=
  [some "FIN", some "SGBC", some "TITRE ABC", some "100", some "50", some "0"]

def pdfC5 : PDF := ⟨[pageVide, pageVide, { text := "", tables := [[rowC5, []]] }]⟩

/-- A row with nonzero prices and no explicit day variation. -/
def rowC5w : List (Option String) :=
  [some "FIN", some "SGBC", some "TITRE ABC", some "100", some "50", some "102"]

def aC5w : Action := (processTableRow none rowC5w).getD dfltAction

/-- A row holding two name-like cells: the security title and, further
right, a dividend date. -/
def rowC7 : List (Option String) :=
  [some "FIN", some "SGBC", some "SOCIETE GENERALE", some "100", some "101", some "102",
   some "15/06/2025"]

/-- A bulletin line whose fifth extracted numeric is -2 000 000 000. -/
def ligneC8 : String := "CB SGBC NOM DU TITRE 10,5 11,5 12,5 1,5 -2000000000"

def pdfC8 : PDF := ⟨[pageVide, pageVide, { text := ligneC8, tables := [] }]⟩

def aC8 : Action := (regexLineAction "PRESTIGE" ligneC8).getD dfltAction

/-- A page-1 text dating the session to Wednesday 11 February 2026. -/
def pdfC6 : PDF := ⟨[{ text := "Bulletin N 29 mercredi 11 février 2026 BRVM", tables := [] }]⟩

def hintC6 : PyDate := ⟨2026, 2, 10⟩

def dC6 : PyDate := ⟨2026, 2, 11⟩

def dbVide : DBState := ⟨[], []⟩

/-- One concrete quote record, for exercising the persistence layer. -/
def aSGBC : Action := { dfltAction with symbole := "SGBC", titre := "SOCIETE GENERALE" }

/-- A range outcome whose middle date raises while processing. -/
def outcomeC2 : ℤ → DayOutcome ℤ Unit :=
  fun d => if d = 1 then .processError () else .success d

/-- A range outcome where every download and parse succeeds. -/
def outcomeOkC2 : ℤ → DayOutcome ℤ Unit := fun d => .success d

/-- The single action the table extractor recovers from pdfC3. -/
def aC3w : Action := (extractActionsTable pdfC3).headD dfltAction

/-- A content page whose two lines repeat the same quote, so the
fallback's deduplication is exercised. -/
def pdfC10 : PDF :=
  ⟨[pageVide, pageVide,
    { text := "CB SGBC NOM DU TITRE 10,5 11,5 12,5\nCB SGBC NOM DU TITRE 10,5 11,5 12,5",
      tables := [] }]⟩

theorem foldl_preserve {α σ : Type _} (f : σ → α → σ) (P : σ → Prop)
    (h : ∀ s a, P s → P (f s a)) : ∀ (l : List α) (s : σ), P s → P (l.foldl f s)
  | [], _, hs => hs
  | a :: l, s, hs => foldl_preserve f P h l (f s a) (h s a hs)

theorem dropWhile_all {α : Type _} (p : α → Bool) (l : List α) (h : l.all p = true) :
    l.dropWhile p = [] := by
  induction l with
  | nil => rfl
  | cons a t ih =>
    simp only [List.all_cons, Bool.and_eq_true] at h
    simp [List.dropWhile_cons, h.1, ih h.2]

theorem dropWhile_len_le {α : Type _} (p : α → Bool) (l : List α) :
    (l.dropWhile p).length ≤ l.length :=
  (List.dropWhile_sublist p (l := l)).length_le

theorem dropWhile_len_lt {p : Char → Bool} {l : List Char}
    (h : (l.takeWhile p).isEmpty = false) : (l.dropWhile p).length < l.length := by
  cases l with
  | nil => simp at h
  | cons a t =>
    by_cases hp : p a
    · simp only [List.dropWhile_cons, hp, if_true, List.length_cons]
      exact Nat.lt_succ_of_le (dropWhile_len_le p t)
    · simp [List.takeWhile_cons, hp] at h

theorem scanSign_len (l : List Char) : (scanSign l).2.length ≤ l.length := by
  unfold scanSign
  cases l with
  | nil => exact le_rfl
  | cons c r =>
    by_cases h : (c = '+' || c = '-') = true
    · simp [h]
    · simp [h]

theorem scanRep3_len : ∀ l : List Char, (scanRep3 l).2.length ≤ l.length
  | c :: d1 :: d2 :: d3 :: rest => by
    by_cases h : (isPyWs c && d1.isDigit && d2.isDigit && d3.isDigit) = true
    · have ih := scanRep3_len rest
      simp only [scanRep3, h, if_true, List.length_cons]
      omega
    · simp [scanRep3, h]
  | [] => by simp [scanRep3]
  | [c] => by simp [scanRep3]
  | [c, d] => by simp [scanRep3]
  | [c, d, e] => by simp [scanRep3]

theorem scanFrac_len (l : List Char) : (scanFrac l).2.length ≤ l.length := by
  unfold scanFrac
  cases l with
  | nil => exact le_rfl
  | cons c r =>
    by_cases h : ((c = ',' || c = '.') && !(r.takeWhile Char.isDigit).isEmpty) = true
    · simp only [h, if_true, List.length_cons]
      exact Nat.le_succ_of_le (dropWhile_len_le _ r)
    · simp [h]

theorem scanPct_len (l : List Char) : (scanPct l).2.length ≤ l.length := by
  unfold scanPct
  split
  · rename_i r heq
    have h1 : (l.dropWhile isPyWs).length ≤ l.length := dropWhile_len_le _ l
    rw [heq] at h1
    simp only [List.length_cons] at h1
    show r.length ≤ l.length
    omega
  · exact le_rfl

theorem scanNumAt_shrink (l m r : List Char) (h : scanNumAt l = some (m, r)) :
    r.length < l.length := by
  unfold scanNumAt at h
  by_cases hds : ((scanSign l).2.takeWhile Char.isDigit).isEmpty = true
  · simp [hds] at h
  · simp only [hds, Bool.false_eq_true, if_false, Option.some.injEq, Prod.mk.injEq] at h
    have hr : r = (scanPct (scanFrac (scanRep3
        ((scanSign l).2.dropWhile Char.isDigit)).2).2).2 := h.2.symm
    have h1 := scanPct_len (scanFrac (scanRep3 ((scanSign l).2.dropWhile Char.isDigit)).2).2
    have h2 := scanFrac_len (scanRep3 ((scanSign l).2.dropWhile Char.isDigit)).2
    have h3 := scanRep3_len ((scanSign l).2.dropWhile Char.isDigit)
    have h4 : ((scanSign l).2.dropWhile Char.isDigit).length < (scanSign l).2.length :=
      dropWhile_len_lt (by simpa using hds)
    have h5 := scanSign_len l
    rw [hr]
    omega

theorem findallNumsGo_nil : ∀ f : ℕ, findallNumsGo f [] = []
  | 0 => rfl
  | _ + 1 => rfl

theorem findallNumsGo_congr :
    ∀ (n f g : ℕ) (l : List Char), l.length ≤ f → l.length ≤ g → l.length ≤ n →
      findallNumsGo f l = findallNumsGo g l
  | _, f, g, [], _, _, _ => by rw [findallNumsGo_nil, findallNumsGo_nil]
  | 0, _, _, c :: rest, _, _, hn => by simp at hn
  | n + 1, f, g, c :: rest, hf, hg, hn => by
    obtain ⟨f2, rfl⟩ : ∃ f2, f = f2 + 1 := ⟨f - 1, by simp at hf; omega⟩
    obtain ⟨g2, rfl⟩ : ∃ g2, g = g2 + 1 := ⟨g - 1, by simp at hg; omega⟩
    simp only [findallNumsGo]
    cases hs : scanNumAt (c :: rest) with
    | some mr =>
      obtain ⟨m, r⟩ := mr
      have hr := scanNumAt_shrink _ _ _ hs
      simp only [List.length_cons] at hr hf hg hn
      show m :: findallNumsGo f2 r = m :: findallNumsGo g2 r
      rw [findallNumsGo_congr n f2 g2 r (by omega) (by omega) (by omega)]
    | none =>
      simp only [List.length_cons] at hf hg hn
      show findallNumsGo f2 rest = findallNumsGo g2 rest
      exact findallNumsGo_congr n f2 g2 rest (by omega) (by omega) (by omega)

/-- The fuel of findallNums is immaterial as soon as it covers the input
length: the scan is the honest unbounded re.findall loop. -/
theorem findallNums_fuel (f : ℕ) (l : List Char) (h : l.length ≤ f) :
    findallNumsGo f l = findallNums l :=
  findallNumsGo_congr (f + l.length) f l.length l h le_rfl (by omega)

theorem pyStrip_all_ws (s : String) (h : s.toList.all isPyWs = true) : pyStrip s = "" := by
  unfold pyStrip
  rw [dropWhile_all isPyWs s.toList h]
  rfl

/-- C9: the numeric normaliser returns null for every sentinel token in
{"", "-", "NC", "ND", "SP"} and for whitespace-only input, maps
"1 234,56" to 1234.56 and "+3,20%" to 3.20, returns null (never raising)
for a non-numeric remainder such as "abc", and the integer variant
truncates the normalised float toward zero or returns null. -/
theorem parse_float_contract :
    (∀ s : String, s.toList.all isPyWs = true → parse_float s = none)
    ∧ parse_float "" = none ∧ parse_float "-" = none ∧ parse_float "NC" = none
    ∧ parse_float "ND" = none ∧ parse_float "SP" = none
    ∧ parse_float "1 234,56" = some (123456 / 100 : ℚ)
    ∧ parse_float "+3,20%" = some (32 / 10 : ℚ)
    ∧ parse_float "abc" = none
    ∧ ∀ s : String, parse_int s = (parse_float s).map pyTrunc := by
  refine ⟨?_, by decide, by decide, by decide, by decide, by decide,
    by with_unfolding_all rfl, by with_unfolding_all rfl, by decide, fun s => rfl⟩
  intro s h
  unfold parse_float
  rw [pyStrip_all_ws s h, if_pos (Or.inr (by decide))]

theorem parse_float_contract_witness : parse_float " " = none :=
  parse_float_contract.1 " " (by decide)

/-- C1 (code bug): after inserting the quote for (2026-02-11, SGBC) into
an empty store, a second insert of the same quote leaves exactly one
stored row (INSERT OR IGNORE on the UNIQUE(date, symbole) key) — but the
function still reports 1, not 0, because the `inserted` counter is
incremented on every execute and INSERT OR IGNORE never raises on a
duplicate.  The claim (and the spec's "returns count actually inserted")
requires the second call to report 0. -/
theorem save_actions_duplicate_count :
    (save_actions [] "2026-02-11" [aSGBC]).1 = [("2026-02-11", "SGBC")]
    ∧ (save_actions [] "2026-02-11" [aSGBC]).2 = 1
    ∧ (save_actions (save_actions [] "2026-02-11" [aSGBC]).1 "2026-02-11" [aSGBC]).1
        = [("2026-02-11", "SGBC")]
    ∧ (save_actions (save_actions [] "2026-02-11" [aSGBC]).1 "2026-02-11" [aSGBC]).2 = 1
    ∧ (1 : ℕ) ≠ 0 := by
  refine ⟨by decide, by decide, by decide, by decide, by decide⟩

/-- C2 counterexample: over the range of the three consecutive weekdays
0, 1, 2, where processing date 1 raises and dates 0 and 2 succeed, the
range collector aborts with the exception instead of returning the
results of the two successful dates — refuting "a failure (download or
parse) for one date never aborts the range" for process failures. -/
theorem collect_range_abort_on_process_error :
    collect_range outcomeC2 0 2 = Except.error ()
    ∧ collect_range outcomeC2 0 2 ≠ Except.ok [(0 : ℤ), 2] := by
  have h : collect_range outcomeC2 0 2 = Except.error () := by with_unfolding_all rfl
  refine ⟨h, ?_⟩
  rw [h]
  intro hx
  exact Except.noConfusion hx

/-- C3 counterexample: a content page whose text carries the second-tier
heading "COMPARTIMENT PRINCIPAL" before a quote row still yields that row
with a null tier, because the table extractor's cursor is only ever set
by the PRESTIGE heading (the PRINCIPAL branch of the source is `pass`) —
refuting "the running cursor is updated whenever a new tier heading text
(either tier) is encountered". -/
theorem tier_cursor_ignores_principal :
    strContains "COMPARTIMENT PRINCIPAL" "COMPARTIMENT PRINCIPAL" = true
    ∧ (extractActionsTable pdfC3).map (·.compartiment) = [none]
    ∧ (none : Option String) ≠ some "PRINCIPAL" := by
  refine ⟨by decide, by with_unfolding_all rfl, by simp⟩

/-- C5 counterexample: a row with closing price 0 and previous close 100,
both present (non-null), and no positional day-variation: the emitted
day-variation stays null because the source guards the derived formula
with Python truthiness (`and`), under which 0.0 is falsy — refuting the
claim, which requires round((0 - 100) / 100 * 100, 2) = -100 there. -/
theorem derived_variation_zero_close :
    (extractActionsTable pdfC5).map (·.cours_cloture) = [some (0 : ℚ)]
    ∧ (extractActionsTable pdfC5).map (·.cours_precedent) = [some (100 : ℚ)]
    ∧ (numsOfRow rowC5)[3]? = none
    ∧ (extractActionsTable pdfC5).map (·.variation_jour) = [none]
    ∧ pyRound2 ((0 - 100) / 100 * 100) = (-100 : ℚ)
    ∧ (none : Option ℚ) ≠ some (-100 : ℚ) := by
  refine ⟨by with_unfolding_all rfl, by with_unfolding_all rfl, by with_unfolding_all rfl,
    by with_unfolding_all rfl, by with_unfolding_all rfl, by simp⟩

/-- C7 counterexample: in a row holding the security title
"SOCIETE GENERALE" and, further right, the dividend date "15/06/2025"
(also non-numeric and longer than 3 characters), the emitted name is the
LAST qualifying cell, not the first: the classification loop overwrites
`titre` on every qualifying cell. -/
theorem titre_last_cell_counterexample :
    titreOfRow rowC7 = "15/06/2025"
    ∧ (processTableRow none rowC7).map (·.titre) = some "15/06/2025"
    ∧ specFirstNameCell rowC7 = some "SOCIETE GENERALE"
    ∧ ("15/06/2025" : String) ≠ "SOCIETE GENERALE" := by
  refine ⟨by with_unfolding_all rfl, by with_unfolding_all rfl,
    by with_unfolding_all rfl, by decide⟩

/-- C8 counterexample: on a line whose fifth extracted numeric is
-2000000000 — magnitude ≥ 1e9 — the fallback extractor still emits that
value as the volume, because the source's guard is the signed comparison
`nums[4] < 1e9`, not a magnitude test; the claim requires a null volume
here. -/
theorem volume_guard_signed_counterexample :
    (numsOfLine ligneC8)[4]? = some (-2000000000 : ℚ)
    ∧ (10 : ℚ) ^ 9 ≤ |(-2000000000 : ℚ)|
    ∧ (extract_actions_regex pdfC8).map (·.volume) = [some (-2000000000 : ℤ)]
    ∧ (some (-2000000000 : ℤ) : Option ℤ) ≠ none := by
  refine ⟨by with_unfolding_all rfl, by norm_num, by with_unfolding_all rfl, by simp⟩

/-- C4: the quality gate of extract_actions — when the table-based tally
across all content pages is below 5 the whole table result is discarded
in favour of the text fallback, and when it reaches 5 the table result is
returned unchanged. -/
theorem fallback_threshold_gate (pdf : PDF) :
    ((extractActionsTable pdf).length < 5 → extract_actions pdf = extract_actions_regex pdf)
    ∧ (5 ≤ (extractActionsTable pdf).length → extract_actions pdf = extractActionsTable pdf) := by
  constructor
  · intro h
    simp only [extract_actions]
    rw [if_pos h]
  · intro h
    simp only [extract_actions]
    rw [if_neg (by omega)]

theorem fallback_threshold_gate_witness :
    extract_actions pdfVide = extract_actions_regex pdfVide :=
  (fallback_threshold_gate pdfVide).1 (by decide)

theorem applyDerived_compartiment (a : Action) :
    (applyDerivedVariation a).compartiment = a.compartiment := by
  unfold applyDerivedVariation
  split <;> rfl

theorem applyDerived_cloture (a : Action) :
    (applyDerivedVariation a).cours_cloture = a.cours_cloture := by
  unfold applyDerivedVariation
  split <;> rfl

theorem applyDerived_precedent (a : Action) :
    (applyDerivedVariation a).cours_precedent = a.cours_precedent := by
  unfold applyDerivedVariation
  split <;> rfl

theorem processTableRow_eq (comp : Option String) (row : List (Option String)) (a : Action)
    (h : processTableRow comp row = some a) :
    ∃ i, findSymIdx row = some i ∧ a = applyDerivedVariation (tableRowRecord comp row i) := by
  unfold processTableRow at h
  by_cases hlen : row.length < 6
  · rw [if_pos hlen] at h
    exact absurd h (by simp)
  · rw [if_neg hlen] at h
    cases hidx : findSymIdx row with
    | none =>
      rw [hidx] at h
      exact absurd h (by simp)
    | some i =>
      rw [hidx] at h
      by_cases hnum : (numsOfRow row).length < 3
      · simp only [if_pos hnum] at h
        exact absurd h (by simp)
      · simp only [if_neg hnum, Option.some.injEq] at h
        exact ⟨i, rfl, h.symm⟩

theorem processTableRow_comp (comp : Option String) (row : List (Option String)) (a : Action)
    (h : processTableRow comp row = some a) : a.compartiment = comp := by
  obtain ⟨i, _, ha⟩ := processTableRow_eq comp row a h
  rw [ha, applyDerived_compartiment]
  rfl

theorem tablePageStep_snd_ok (st : List Action × Option String) (page : RawPage)
    (h : st.2 = none ∨ st.2 = some "PRESTIGE") :
    (tablePageStep st page).2 = none ∨ (tablePageStep st page).2 = some "PRESTIGE" := by
  have h2 : (tablePageStep st page).2
      = (if strContains page.text "COMPARTIMENT PRESTIGE" then some "PRESTIGE" else st.2) := rfl
  rw [h2]
  split
  · exact Or.inr rfl
  · exact h

theorem mem_table_fold (comp : Option String) :
    ∀ (table : List (List (Option String))) (acc : List Action) (a : Action),
      a ∈ table.foldl (fun acc2 row =>
          match processTableRow comp row with
          | some b => acc2 ++ [b]
          | none => acc2) acc →
      a ∈ acc ∨ ∃ row, processTableRow comp row = some a
  | [], _, a, h => Or.inl h
  | row :: rows, acc, a, h => by
    rw [List.foldl_cons] at h
    rcases mem_table_fold comp rows _ a h with h1 | h1
    · cases hrow : processTableRow comp row with
      | none => rw [hrow] at h1; exact Or.inl h1
      | some b =>
        rw [hrow] at h1
        rcases List.mem_append.mp h1 with h2 | h2
        · exact Or.inl h2
        · exact Or.inr ⟨row, by rw [hrow, List.mem_singleton.mp h2]⟩
    · exact Or.inr h1

theorem mem_tables_fold (comp : Option String) :
    ∀ (tables : List (List (List (Option String)))) (acc : List Action) (a : Action),
      a ∈ tables.foldl (fun acc table =>
          if table.length < 2 then acc
          else table.foldl (fun acc2 row =>
            match processTableRow comp row with
            | some b => acc2 ++ [b]
            | none => acc2) acc) acc →
      a ∈ acc ∨ ∃ row, processTableRow comp row = some a
  | [], _, a, h => Or.inl h
  | t :: ts, acc, a, h => by
    rw [List.foldl_cons] at h
    rcases mem_tables_fold comp ts _ a h with h1 | h1
    · by_cases hlen : t.length < 2
      · rw [if_pos hlen] at h1
        exact Or.inl h1
      · rw [if_neg hlen] at h1
        exact mem_table_fold comp t acc a h1
    · exact Or.inr h1

theorem mem_tablePageStep (st : List Action × Option String) (page : RawPage) (a : Action)
    (h : a ∈ (tablePageStep st page).1) :
    a ∈ st.1 ∨ ∃ row, processTableRow (tablePageStep st page).2 row = some a := by
  have h2 : (tablePageStep st page).2
      = (if strContains page.text "COMPARTIMENT PRESTIGE" then some "PRESTIGE" else st.2) := rfl
  rw [h2]
  unfold tablePageStep at h
  exact mem_tables_fold _ page.tables st.1 a h

/-- C3 amended: in the table-based extractor the tier cursor is only ever
set by the first-tier (PRESTIGE) heading — the second-tier (PRINCIPAL)
heading is ignored, so every extracted row carries either a null tier or
the PRESTIGE label; in the text-fallback extractor the cursor is updated
by either heading, so a row preceded by a PRINCIPAL heading does get the
PRINCIPAL label. -/
theorem tier_cursor_amended :
    (∀ (pdf : PDF) (a : Action), a ∈ extractActionsTable pdf →
        a.compartiment = none ∨ a.compartiment = some "PRESTIGE")
    ∧ (extract_actions_regex pdfTierFallback).map (·.compartiment) = [some "PRINCIPAL"] := by
  constructor
  · intro pdf a ha
    unfold extractActionsTable at ha
    have hstep : ∀ (s : List Action × Option String) (p : RawPage),
        ((∀ b ∈ s.1, b.compartiment = none ∨ b.compartiment = some "PRESTIGE")
          ∧ (s.2 = none ∨ s.2 = some "PRESTIGE")) →
        ((∀ b ∈ (tablePageStep s p).1,
            b.compartiment = none ∨ b.compartiment = some "PRESTIGE")
          ∧ ((tablePageStep s p).2 = none ∨ (tablePageStep s p).2 = some "PRESTIGE")) := by
      intro s p hp
      refine ⟨?_, tablePageStep_snd_ok s p hp.2⟩
      intro b hb
      rcases mem_tablePageStep s p b hb with h1 | ⟨row, hrow⟩
      · exact hp.1 b h1
      · rw [processTableRow_comp _ row b hrow]
        exact tablePageStep_snd_ok s p hp.2
    exact (foldl_preserve tablePageStep _ hstep (pagesContenu pdf) ([], none)
      ⟨by simp, Or.inl rfl⟩).1 a ha
  · with_unfolding_all rfl

theorem tier_cursor_amended_witness :
    aC3w.compartiment = none ∨ aC3w.compartiment = some "PRESTIGE" :=
  tier_cursor_amended.1 pdfC3 aC3w
    (List.mem_of_mem_head? (by with_unfolding_all rfl))

theorem regexLineStep_nodup (st : List Action × String) (line : String)
    (h : (st.1.map (·.symbole)).Nodup) :
    (((regexLineStep st line).1).map (·.symbole)).Nodup := by
  show (((match regexLineAction (tierUpdate st.2 line) line with
      | none => (st.1, tierUpdate st.2 line)
      | some a =>
        if a.symbole ∈ st.1.map (fun x : Action => x.symbole) then (st.1, tierUpdate st.2 line)
        else (st.1 ++ [a], tierUpdate st.2 line)).1).map (fun x : Action => x.symbole)).Nodup
  cases hA : regexLineAction (tierUpdate st.2 line) line with
  | none => exact h
  | some a =>
    by_cases hm : a.symbole ∈ st.1.map (fun x : Action => x.symbole)
    · show ((if a.symbole ∈ st.1.map (fun x : Action => x.symbole)
            then (st.1, tierUpdate st.2 line)
          else (st.1 ++ [a], tierUpdate st.2 line)).1.map (fun x : Action => x.symbole)).Nodup
      rw [if_pos hm]
      exact h
    · show ((if a.symbole ∈ st.1.map (fun x : Action => x.symbole)
            then (st.1, tierUpdate st.2 line)
          else (st.1 ++ [a], tierUpdate st.2 line)).1.map (fun x : Action => x.symbole)).Nodup
      rw [if_neg hm]
      simp only [List.map_append, List.map_cons, List.map_nil]
      rw [List.nodup_append]
      refine ⟨h, List.nodup_singleton _, ?_⟩
      intro x hx hx2
      rw [List.mem_singleton.mp hx2] at hx
      exact hm hx

/-- C10: the text-fallback extractor's output never contains two records
with the same symbol — the `symbole not in [a["symbole"] for a in
actions]` check deduplicates against the whole accumulated result, which
spans all content pages, so a symbol captured on an earlier page is also
skipped on every later page. -/
theorem regex_dedup_nodup (pdf : PDF) :
    ((extract_actions_regex pdf).map (·.symbole)).Nodup := by
  unfold extract_actions_regex
  exact foldl_preserve (fun st page => (splitNl page.text).foldl regexLineStep st)
    (fun st => (st.1.map (·.symbole)).Nodup)
    (fun s p hp => foldl_preserve regexLineStep _
      (fun s2 line h2 => regexLineStep_nodup s2 line h2) (splitNl p.text) s hp)
    (pagesContenu pdf) ([], "PRESTIGE") (by simp)

theorem applyDerived_var_some (a : Action) (v : ℚ) (h : a.variation_jour = some v) :
    (applyDerivedVariation a).variation_jour = some v := by
  unfold applyDerivedVariation
  rw [h]
  simp [h]

theorem applyDerived_var_derive (a : Action) (c p : ℚ)
    (hc : a.cours_cloture = some c) (hp : a.cours_precedent = some p)
    (hc0 : c ≠ 0) (hp0 : p ≠ 0) (hv : a.variation_jour = none) :
    (applyDerivedVariation a).variation_jour = some (pyRound2 ((c - p) / p * 100)) := by
  unfold applyDerivedVariation
  rw [hc, hp, hv]
  simp [truthyQ, hc0, hp0]

/-- C5 amended: in the table extractor the derived day-variation formula
round((closing − previous) / previous × 100, 2) is applied exactly when
the positional day-variation slot is absent and the closing price and
previous close are both present AND non-zero (Python truthiness: a
present-but-zero price suppresses the formula, leaving the variation
null); a positionally supplied day-variation value is always kept, so the
derived formula never overrides an explicit value. -/
theorem derived_variation_amended (comp : Option String) (row : List (Option String))
    (a : Action) (h : processTableRow comp row = some a) :
    (∀ c p : ℚ, a.cours_cloture = some c → a.cours_precedent = some p →
        c ≠ 0 → p ≠ 0 → (numsOfRow row)[3]? = none →
        a.variation_jour = some (pyRound2 ((c - p) / p * 100)))
    ∧ ∀ v : ℚ, (numsOfRow row)[3]? = some v → a.variation_jour = some v := by
  obtain ⟨i, _, ha⟩ := processTableRow_eq comp row a h
  constructor
  · intro c p hc hp hc0 hp0 hv
    rw [ha] at hc hp ⊢
    rw [applyDerived_cloture] at hc
    rw [applyDerived_precedent] at hp
    have hv2 : (tableRowRecord comp row i).variation_jour = none := by
      show (numsOfRow row)[3]? = none
      exact hv
    exact applyDerived_var_derive _ c p hc hp hc0 hp0 hv2
  · intro v hv
    rw [ha]
    refine applyDerived_var_some _ v ?_
    show (numsOfRow row)[3]? = some v
    exact hv

theorem derived_variation_amended_witness :
    aC5w.variation_jour = some (pyRound2 ((102 - 100) / 100 * 100)) :=
  (derived_variation_amended none rowC5w aC5w (by with_unfolding_all rfl)).1 102 100
    (by with_unfolding_all rfl) (by with_unfolding_all rfl)
    (by norm_num) (by norm_num) (by with_unfolding_all rfl)

theorem regexLineAction_eq (comp : String) (line : String) (a : Action)
    (h : regexLineAction comp line = some a) :
    ∃ i symbole, findSymboleWords (pyWords line) = some (i, symbole)
      ∧ a = regexLineRecord comp line i symbole := by
  unfold regexLineAction at h
  by_cases hw : (pyWords line).isEmpty = true
  · rw [if_pos hw] at h
    exact absurd h (by simp)
  · rw [if_neg hw] at h
    cases hf : findSymboleWords (pyWords line) with
    | none =>
      rw [hf] at h
      exact absurd h (by simp)
    | some is =>
      obtain ⟨i, symbole⟩ := is
      rw [hf] at h
      by_cases hn : (numsOfLine line).length < 3
      · simp only [if_pos hn] at h
        exact absurd h (by simp)
      · simp only [if_neg hn, Option.some.injEq] at h
        exact ⟨i, symbole, rfl, h.symm⟩

/-- C8 amended: in the text-fallback extractor the volume guard is the
SIGNED comparison nums[4] < 1e9, not a magnitude test: the emitted volume
is the truncated fifth numeric exactly when that value is less than 1e9
(so a fifth numeric ≥ 1e9 yields a null volume, but a negative value of
magnitude ≥ 1e9 is accepted), and null when the fifth numeric is absent. -/
theorem volume_guard_amended (comp : String) (line : String) (a : Action)
    (h : regexLineAction comp line = some a) :
    a.volume = match (numsOfLine line)[4]? with
      | some v => if v < 10 ^ 9 then some (pyTrunc v) else none
      | none => none := by
  obtain ⟨i, symbole, _, ha⟩ := regexLineAction_eq comp line a h
  rw [ha]
  rfl

theorem volume_guard_amended_witness :
    aC8.volume = match (numsOfLine ligneC8)[4]? with
      | some v => if v < 10 ^ 9 then some (pyTrunc v) else none
      | none => none :=
  volume_guard_amended "PRESTIGE" ligneC8 aC8 (by with_unfolding_all rfl)

theorem getLast?_cons_getD {α : Type _} (x : α) (l : List α) (t : α) :
    ((x :: l).getLast?).getD t = (l.getLast?).getD x := by
  cases l with
  | nil => rfl
  | cons y ys =>
    rw [List.getLast?_cons_cons]
    cases h : (y :: ys).getLast? with
    | none => exact absurd h (by simp)
    | some z => rfl

theorem classify_fold (cells : List (Option String)) :
    ∀ (ns : List ℚ) (t : String),
      cells.foldl classifyStep (ns, t)
        = (ns ++ ((cells.map cellNorm).filter (fun cs => !cellSkipped cs)).filterMap parse_float,
          ((((cells.map cellNorm).filter (fun cs => !cellSkipped cs)).filter
              (fun cs => (parse_float cs).isNone && nameTest cs)).getLast?).getD t) := by
  induction cells with
  | nil =>
    intro ns t
    simp
  | cons c cs ih =>
    intro ns t
    rw [List.foldl_cons]
    by_cases hsk : cellSkipped (cellNorm c) = true
    · have hstep : classifyStep (ns, t) c = (ns, t) := by
        unfold classifyStep
        rw [if_pos hsk]
      rw [hstep, ih ns t]
      simp [hsk]
    · cases hp : parse_float (cellNorm c) with
      | some v =>
        have hstep : classifyStep (ns, t) c = (ns ++ [v], t) := by
          unfold classifyStep
          rw [if_neg hsk, hp]
        rw [hstep, ih (ns ++ [v]) t]
        simp [hsk, hp]
      | none =>
        by_cases hname : nameTest (cellNorm c) = true
        · have hstep : classifyStep (ns, t) c = (ns, cellNorm c) := by
            unfold classifyStep
            rw [if_neg hsk, hp, if_pos hname]
          rw [hstep, ih ns (cellNorm c)]
          simp [hsk, hp, hname, getLast?_cons_getD]
        · have hstep : classifyStep (ns, t) c = (ns, t) := by
            unfold classifyStep
            rw [if_neg hsk, hp, if_neg hname]
          rw [hstep, ih ns t]
          simp [hsk, hp, hname]

/-- C7 amended: among the remaining cells of an accepted row, the numeric
cells are collected in left-to-right order into the ordered numeric
sequence, but the free-text security name is the LAST — not the first —
non-numeric cell longer than 3 characters that is not itself all-digits:
the classification loop overwrites the running title on every qualifying
cell. -/
theorem row_classification_amended (row : List (Option String)) :
    numsOfRow row = (eligibleCells row).filterMap parse_float
    ∧ titreOfRow row = ((nameCells row).getLast?).getD "" := by
  unfold numsOfRow titreOfRow classifyCells eligibleCells nameCells
  rw [classify_fold row [] ""]
  exact ⟨by simp, rfl⟩

theorem mem_insertCoursKey {db : List (String × String)} {key k : String × String}
    (h : k ∈ insertCoursKey db key) : k ∈ db ∨ k = key := by
  unfold insertCoursKey at h
  split at h
  · exact Or.inl h
  · rcases List.mem_append.mp h with h1 | h1
    · exact Or.inl h1
    · exact Or.inr (List.mem_singleton.mp h1)

theorem save_actions_fold_key (date_str : String) :
    ∀ (actions : List Action) (db : List (String × String)) (n : ℕ) (k : String × String),
      k ∈ (actions.foldl
          (fun st a => (insertCoursKey st.1 (date_str, a.symbole), st.2 + 1)) (db, n)).1 →
      k ∈ db ∨ k.1 = date_str
  | [], _, _, _, h => Or.inl h
  | a :: as, db, n, k, h => by
    rw [List.foldl_cons] at h
    rcases save_actions_fold_key date_str as (insertCoursKey db (date_str, a.symbole))
        (n + 1) k h with h1 | h1
    · rcases mem_insertCoursKey h1 with h2 | h2
      · exact Or.inl h2
      · right
        rw [h2]
    · exact Or.inr h1

theorem mem_save_actions (db : List (String × String)) (date_str : String)
    (actions : List Action) (k : String × String)
    (h : k ∈ (save_actions db date_str actions).1) : k ∈ db ∨ k.1 = date_str :=
  save_actions_fold_key date_str actions db 0 k h

theorem mem_save_seance (db : List String) (date_str k : String)
    (h : k ∈ save_seance db date_str) : k ∈ db ∨ k = date_str := by
  unfold save_seance at h
  split at h
  · exact Or.inl h
  · rcases List.mem_append.mp h with h1 | h1
    · exact Or.inl h1
    · exact Or.inr (List.mem_singleton.mp h1)

theorem process_bulletin_keys (db : DBState) (pdf : PDF) (hint : PyDate) :
    (∀ k ∈ (process_bulletin db pdf hint).1.seances,
        k ∈ db.seances ∨ k = bulletinDateKey pdf hint)
    ∧ ∀ k ∈ (process_bulletin db pdf hint).1.cours,
        k ∈ db.cours ∨ k.1 = bulletinDateKey pdf hint := by
  constructor
  · intro k hk
    exact mem_save_seance db.seances (bulletinDateKey pdf hint) k hk
  · intro k hk
    exact mem_save_actions db.cours (bulletinDateKey pdf hint) (extract_actions pdf) k hk

/-- C6: when the date resolved from page 1 differs from the caller hint,
every record process_bulletin persists — the summary row and every quote
row — is keyed by the resolved date; when no date pattern matches page 1,
every persisted record is keyed by the caller-supplied hint as-is. -/
theorem resolved_date_keys_persistence (pdf : PDF) (hint : PyDate) (db : DBState) :
    (∀ d : PyDate, extract_date_from_pdf pdf = some d → d ≠ hint →
        (∀ k ∈ (process_bulletin db pdf hint).1.seances, k ∈ db.seances ∨ k = dateToStr d)
        ∧ ∀ k ∈ (process_bulletin db pdf hint).1.cours, k ∈ db.cours ∨ k.1 = dateToStr d)
    ∧ (extract_date_from_pdf pdf = none →
        (∀ k ∈ (process_bulletin db pdf hint).1.seances, k ∈ db.seances ∨ k = dateToStr hint)
        ∧ ∀ k ∈ (process_bulletin db pdf hint).1.cours, k ∈ db.cours ∨ k.1 = dateToStr hint) := by
  constructor
  · intro d hd hne
    have hb : bulletinDateKey pdf hint = dateToStr d := by
      unfold bulletinDateKey
      rw [hd]
      show (if d ≠ hint then dateToStr d else dateToStr hint) = dateToStr d
      rw [if_pos hne]
    have hkeys := process_bulletin_keys db pdf hint
    rw [hb] at hkeys
    exact hkeys
  · intro hnone
    have hb : bulletinDateKey pdf hint = dateToStr hint := by
      unfold bulletinDateKey
      rw [hnone]
    have hkeys := process_bulletin_keys db pdf hint
    rw [hb] at hkeys
    exact hkeys

theorem resolved_date_keys_witness :
    (∀ k ∈ (process_bulletin dbVide pdfC6 hintC6).1.seances,
        k ∈ dbVide.seances ∨ k = dateToStr dC6)
    ∧ ∀ k ∈ (process_bulletin dbVide pdfC6 hintC6).1.cours,
        k ∈ dbVide.cours ∨ k.1 = dateToStr dC6 :=
  (resolved_date_keys_persistence pdfC6 hintC6 dbVide).1 dC6 (by decide) (by decide)

theorem dayList_nil (start endD : ℤ) (h : endD < start) : dayList start endD = [] := by
  unfold dayList
  have h1 : (endD + 1 - start).toNat = 0 := by omega
  rw [h1]
  rfl

theorem dayList_cons (start endD : ℤ) (h : start ≤ endD) :
    dayList start endD = start :: dayList (start + 1) endD := by
  unfold dayList
  have h1 : (endD + 1 - start).toNat = (endD + 1 - (start + 1)).toNat + 1 := by omega
  rw [h1, List.range_succ_eq_map]
  rw [List.map_cons, List.map_map]
  refine congrArg₂ _ (by omega) ?_
  apply List.map_congr_left
  intro i _
  simp only [Function.comp_apply]
  push_cast
  omega

theorem weekdaySuccesses_nil {R E : Type} (outcome : ℤ → DayOutcome R E) (start endD : ℤ)
    (h : endD < start) : weekdaySuccesses outcome start endD = [] := by
  unfold weekdaySuccesses
  rw [dayList_nil start endD h]
  rfl

theorem collectRangeGo_ok {R E : Type} (outcome : ℤ → DayOutcome R E) (endD : ℤ) :
    ∀ (fuel : ℕ) (current : ℤ) (acc : List R),
      fuel = (endD + 1 - current).toNat →
      (∀ d : ℤ, current ≤ d → d ≤ endD → isProcError (outcome d) = false) →
      collectRangeGo outcome endD fuel current acc
        = Except.ok (acc ++ weekdaySuccesses outcome current endD) := by
  intro fuel
  induction fuel with
  | zero =>
    intro current acc hfuel hout
    have hlt : endD < current := by omega
    rw [weekdaySuccesses_nil outcome current endD hlt]
    show Except.ok acc = Except.ok (acc ++ [])
    rw [List.append_nil]
  | succ f ih =>
    intro current acc hfuel hout
    have hle : current ≤ endD := by omega
    have hday : weekdaySuccesses outcome current endD
        = (if pyWeekday current < 5 then (successOf (outcome current)).toList else [])
          ++ weekdaySuccesses outcome (current + 1) endD := by
      unfold weekdaySuccesses
      rw [dayList_cons current endD hle, List.filter_cons]
      by_cases hw : pyWeekday current < 5
      · rw [if_pos (by simpa using hw), if_pos hw, List.filterMap_cons]
        cases ho : outcome current with
        | success r => simp [successOf, ho]
        | downloadFail => simp [successOf, ho]
        | processError e => simp [successOf, ho]
      · rw [if_neg (by simpa using hw), if_neg hw]
        simp
    unfold collectRangeGo
    rw [if_pos hle]
    by_cases hw : pyWeekday current < 5
    · rw [if_pos hw]
      unfold collect_date
      rw [if_neg (by omega)]
      cases ho : outcome current with
      | success r =>
        show collectRangeGo outcome endD f (current + 1) (acc ++ [r])
            = Except.ok (acc ++ weekdaySuccesses outcome current endD)
        rw [ih (current + 1) (acc ++ [r]) (by omega)
            (fun d h1 h2 => hout d (by omega) h2)]
        rw [hday, if_pos hw, ho]
        simp [successOf, List.append_assoc]
      | downloadFail =>
        show collectRangeGo outcome endD f (current + 1) acc
            = Except.ok (acc ++ weekdaySuccesses outcome current endD)
        rw [ih (current + 1) acc (by omega) (fun d h1 h2 => hout d (by omega) h2)]
        rw [hday, if_pos hw, ho]
        simp [successOf]
      | processError e =>
        have := hout current le_rfl hle
        rw [ho] at this
        exact absurd this (by simp [isProcError])
    · rw [if_neg hw]
      show collectRangeGo outcome endD f (current + 1) acc
          = Except.ok (acc ++ weekdaySuccesses outcome current endD)
      rw [ih (current + 1) acc (by omega) (fun d h1 h2 => hout d (by omega) h2)]
      rw [hday, if_neg hw]
      simp

/-- C2 amended: collect_range visits the dates of the range strictly in
ascending order, skips weekends, and treats a download failure for one
date as a skip that never aborts the range: when no date of the range
raises during bulletin processing, it returns exactly the results of all
successful weekday dates in order.  (An exception raised while processing
one bulletin, however, propagates and aborts the range — see the
counterexample.) -/
theorem collect_range_skips_failures_amended {R E : Type} (outcome : ℤ → DayOutcome R E)
    (start endD : ℤ)
    (h : ∀ d : ℤ, start ≤ d → d ≤ endD → isProcError (outcome d) = false) :
    collect_range outcome start endD = Except.ok (weekdaySuccesses outcome start endD) := by
  unfold collect_range
  by_cases hr : start ≤ endD + 1
  · rw [collectRangeGo_ok outcome endD (endD + 1 - start).toNat start [] rfl h]
    simp
  · have h0 : (endD + 1 - start).toNat = 0 := by omega
    rw [h0]
    rw [weekdaySuccesses_nil outcome start endD (by omega)]
    rfl

theorem collect_range_skips_failures_witness :
    collect_range outcomeOkC2 0 6 = Except.ok (weekdaySuccesses outcomeOkC2 0 6) :=
  collect_range_skips_failures_amended outcomeOkC2 0 6 (fun _ _ _ => rfl)

theorem row_classification_amended_witness :
    numsOfRow rowC7 = (eligibleCells rowC7).filterMap parse_float
    ∧ titreOfRow rowC7 = ((nameCells rowC7).getLast?).getD "" :=
  row_classification_amended rowC7

theorem regex_dedup_nodup_witness :
    ((extract_actions_regex pdfC10).map (·.symbole)).Nodup :=
  regex_dedup_nodup pdfC10

end BRVM
